import Mathlib

/-!
Shallow embedding of the elevation RGB codec of `rio_gsidem/encoders.py`.

Numpy float64 samples are modelled by `RioGsidem.FVal`: a rational number,
NaN, or a signed infinity.  All arithmetic the codec performs on samples is
modelled exactly over `ℚ` (the float rounding of `0.01` is immaterial to the
claims, which are stated with a `0.01` tolerance or at values far from the
comparison thresholds).  Grids are lists of rows; the encoded grid stores one
`(r, g, b)` triple of bytes per pixel.
-/

namespace RioGsidem

/-- A numpy float64 value as the codec observes it: finite, NaN, or ±inf. -/
inductive FVal where
  | fin : ℚ → FVal
  | nan : FVal
  | posinf : FVal
  | neginf : FVal
  deriving DecidableEq

/-- `np.isnan`. -/
def FVal.isNaN : FVal → Bool
  | .nan => true
  | _ => false

/-- The quantization unit `u = 0.01` of `data_to_rgb` and `_decode`. -/
def u : ℚ := 1 / 100

/-- IEEE maximum of two non-NaN values (used only on NaN-filtered lists). -/
def fmax : FVal → FVal → FVal
  | .nan, _ => .nan
  | _, .nan => .nan
  | .posinf, _ => .posinf
  | _, .posinf => .posinf
  | .fin a, .fin b => .fin (max a b)
  | .fin a, .neginf => .fin a
  | .neginf, .fin b => .fin b
  | .neginf, .neginf => .neginf

/-- IEEE minimum of two non-NaN values (used only on NaN-filtered lists). -/
def fmin : FVal → FVal → FVal
  | .nan, _ => .nan
  | _, .nan => .nan
  | .neginf, _ => .neginf
  | _, .neginf => .neginf
  | .fin a, .fin b => .fin (min a b)
  | .fin a, .posinf => .fin a
  | .posinf, .fin b => .fin b
  | .posinf, .posinf => .posinf

/-- `np.nanmax`: maximum ignoring NaN; NaN when no non-NaN value exists. -/
def nanmax (l : List FVal) : FVal :=
  match l.filter (fun v => !v.isNaN) with
  | [] => .nan
  | v :: vs => vs.foldl fmax v

/-- `np.nanmin`: minimum ignoring NaN; NaN when no non-NaN value exists. -/
def nanmin (l : List FVal) : FVal :=
  match l.filter (fun v => !v.isNaN) with
  | [] => .nan
  | v :: vs => vs.foldl fmin v

/-- IEEE subtraction on the modelled values (`nanmax - nanmin`). -/
def fsub : FVal → FVal → FVal
  | .nan, _ => .nan
  | _, .nan => .nan
  | .fin a, .fin b => .fin (a - b)
  | .fin _, .posinf => .neginf
  | .fin _, .neginf => .posinf
  | .posinf, .fin _ => .posinf
  | .posinf, .posinf => .nan
  | .posinf, .neginf => .posinf
  | .neginf, .fin _ => .neginf
  | .neginf, .posinf => .neginf
  | .neginf, .neginf => .nan

/-- IEEE `>` comparison: false whenever either operand is NaN. -/
def fgt : FVal → FVal → Bool
  | .nan, _ => false
  | _, .nan => false
  | .fin a, .fin b => decide (b < a)
  | .fin _, .posinf => false
  | .fin _, .neginf => true
  | .posinf, .posinf => false
  | .posinf, _ => true
  | .neginf, _ => false

/-- `np.where(data == nodata, np.nan, data)` per sample: a sample comparing
equal to the sentinel becomes NaN; with `nodata=None` the step is skipped.
(NaN and ±inf never compare equal to a finite sentinel.) -/
def substNodata (nodata : Option ℚ) (v : FVal) : FVal :=
  match nodata with
  | none => v
  | some n => if v = FVal.fin n then FVal.nan else v

/-- `x = data / u` per valid sample (IEEE division by the positive `u`). -/
def fscale : FVal → FVal
  | .fin q => .fin (q / u)
  | .nan => .nan
  | .posinf => .posinf
  | .neginf => .neginf

/-- The scale-and-clamp pipeline applied to one valid sample:
`x = v / u`, then `np.nan_to_num(x, nan=0, posinf=2**24-1, neginf=0)`,
then `x[x < 0] = 0`, then `x[x > 2**24-1] = 2**24-1`. -/
def scaleClamp (v : FVal) : ℚ :=
  let x0 : ℚ :=
    match fscale v with
    | .fin q => q
    | .nan => 0
    | .posinf => 2 ^ 24 - 1
    | .neginf => 0
  let x1 : ℚ := if x0 < 0 then 0 else x0
  if x1 > 2 ^ 24 - 1 then 2 ^ 24 - 1 else x1

/-- The channel split of one clamped scaled sample:
`r = (x // 2**16).astype(uint32)`, `x -= r * 2**16`,
`g = (x // 2**8).astype(uint32)`, `x -= g * 2**8`, `b = x.astype(uint32)`,
and each channel is finally stored with `.astype(uint8)` (mod 256). -/
def splitChannels (xc : ℚ) : Nat × Nat × Nat :=
  let r : Nat := (Int.toNat ⌊xc / 2 ^ 16⌋) % 2 ^ 32
  let x1 : ℚ := xc - (r : ℚ) * 2 ^ 16
  let g : Nat := (Int.toNat ⌊x1 / 2 ^ 8⌋) % 2 ^ 32
  let x2 : ℚ := x1 - (g : ℚ) * 2 ^ 8
  let b : Nat := (Int.toNat ⌊x2⌋) % 2 ^ 32
  (r % 2 ^ 8, g % 2 ^ 8, b % 2 ^ 8)

/-- One pixel of the encoder output: NaN (missing) pixels get the reserved
triple `(128, 0, 0)`; valid pixels go through scale, clamp and split. -/
def encodePixel (v : FVal) : Nat × Nat × Nat :=
  if v.isNaN then (128, 0, 0) else splitChannels (scaleClamp v)

/-- `_range_check`: is the data range above `maxrange = 256 ** 3`? -/
def _range_check (datarange : FVal) : Bool :=
  fgt datarange (.fin (256 ^ 3))

/-- `data_to_rgb(data, nodata)`: `none` models the `ValueError` raised when
the (raw, pre-scaling) data range exceeds `256 ** 3`; otherwise the encoded
grid.  The per-pixel transform is `encodePixel ∘ substNodata nodata`. -/
def data_to_rgb (grid : List (List FVal)) (nodata : Option ℚ) :
    Option (List (List (Nat × Nat × Nat))) :=
  let d := grid.map (fun row => row.map (substNodata nodata))
  let datarange := fsub (nanmax d.flatten) (nanmin d.flatten)
  if fgt datarange (.fin (256 ^ 3)) then none
  else some (d.map (fun row => row.map encodePixel))

/-- One pixel of `_decode`: `value = (r*2**16 + g*2**8 + b) * u`; the pixel
`(128, 0, 0)` is overwritten with `-9999`; afterwards any entry `> 2**23`
is replaced by `(entry - 2**24) * u`. -/
def decodePixel (p : Nat × Nat × Nat) : ℚ :=
  let value : ℚ := ((p.1 : ℚ) * 2 ^ 16 + (p.2.1 : ℚ) * 2 ^ 8 + (p.2.2 : ℚ)) * u
  let v1 : ℚ := if p = (128, 0, 0) then -9999 else value
  if v1 > 2 ^ 23 then (v1 - 2 ^ 24) * u else v1

/-- `_decode(rgb)`: per-pixel decode over the grid. -/
def _decode (rgb : List (List (Nat × Nat × Nat))) : List (List ℚ) :=
  rgb.map (fun row => row.map decodePixel)

/-- Pixel lookup in a 2-D grid (row `i`, column `j`). -/
def get2 {α : Type} (g : List (List α)) (i j : Nat) : Option α :=
  (g[i]?).bind (fun row => row[j]?)

/-- The finite values of a list of samples (what `nanmax`/`nanmin` see once
infinities are excluded). -/
def finVals (l : List FVal) : List ℚ :=
  l.filterMap (fun v => match v with | .fin q => some q | _ => none)

/-- The finite valid (post-substitution) samples of a grid. -/
def validVals (grid : List (List FVal)) (nodata : Option ℚ) : List ℚ :=
  finVals ((grid.map (fun row => row.map (substNodata nodata))).flatten)

/-! ### Evaluation lemmas for the per-sample operations -/

@[simp] theorem isNaN_fin (q : ℚ) : (FVal.fin q).isNaN = false := rfl

@[simp] theorem isNaN_nan : FVal.nan.isNaN = true := rfl

@[simp] theorem isNaN_posinf : FVal.posinf.isNaN = false := rfl

@[simp] theorem isNaN_neginf : FVal.neginf.isNaN = false := rfl

@[simp] theorem substNodata_none (v : FVal) : substNodata none v = v := rfl

@[simp] theorem substNodata_some_fin (n q : ℚ) :
    substNodata (some n) (FVal.fin q) = if q = n then FVal.nan else FVal.fin q := by
  simp [substNodata]

@[simp] theorem substNodata_some_nan (n : ℚ) :
    substNodata (some n) FVal.nan = FVal.nan := by
  simp [substNodata]

@[simp] theorem substNodata_some_posinf (n : ℚ) :
    substNodata (some n) FVal.posinf = FVal.posinf := by
  simp [substNodata]

@[simp] theorem substNodata_some_neginf (n : ℚ) :
    substNodata (some n) FVal.neginf = FVal.neginf := by
  simp [substNodata]

@[simp] theorem scaleClamp_nan : scaleClamp FVal.nan = 0 := by
  norm_num [scaleClamp, fscale]

@[simp] theorem scaleClamp_posinf : scaleClamp FVal.posinf = 2 ^ 24 - 1 := by
  norm_num [scaleClamp, fscale]

@[simp] theorem scaleClamp_neginf : scaleClamp FVal.neginf = 0 := by
  norm_num [scaleClamp, fscale]

theorem scaleClamp_fin (q : ℚ) :
    scaleClamp (FVal.fin q) =
      if q / u < 0 then 0 else if q / u > 2 ^ 24 - 1 then 2 ^ 24 - 1 else q / u := by
  simp only [scaleClamp, fscale]
  by_cases h1 : q / u < 0
  · rw [if_pos h1, if_neg (by norm_num : ¬((0 : ℚ) > 2 ^ 24 - 1)), if_pos h1]
  · rw [if_neg h1, if_neg h1]

theorem splitChannels_nat (n : Nat) (h : n < 2 ^ 24) :
    splitChannels (n : ℚ) = (n / 2 ^ 16, n / 2 ^ 8 % 2 ^ 8, n % 2 ^ 8) := by
  have c16 : ((2 ^ 16 : ℕ) : ℚ) = 2 ^ 16 := by push_cast; ring
  have c8 : ((2 ^ 8 : ℕ) : ℚ) = 2 ^ 8 := by push_cast; ring
  have hfr : ⌊(n : ℚ) / 2 ^ 16⌋ = ((n / 2 ^ 16 : ℕ) : ℤ) := by
    rw [← c16, Rat.floor_natCast_div_natCast, ← Int.natCast_div]
  have hr : n / 2 ^ 16 < 2 ^ 8 := by omega
  have hx1 : (n : ℚ) - ((n / 2 ^ 16 : ℕ) : ℚ) * 2 ^ 16 = ((n % 2 ^ 16 : ℕ) : ℚ) := by
    have hd := Nat.div_add_mod n (2 ^ 16)
    have : ((2 ^ 16 * (n / 2 ^ 16) + n % 2 ^ 16 : ℕ) : ℚ) = ((n : ℕ) : ℚ) := by rw [hd]
    push_cast at this
    linarith
  have hfg : ⌊((n % 2 ^ 16 : ℕ) : ℚ) / 2 ^ 8⌋ = ((n / 2 ^ 8 % 2 ^ 8 : ℕ) : ℤ) := by
    rw [← c8, Rat.floor_natCast_div_natCast, ← Int.natCast_div]
    norm_cast
    have : (2 : ℕ) ^ 16 = 2 ^ 8 * 2 ^ 8 := by norm_num
    rw [this, Nat.mod_mul_right_div_self]
  have hg : n / 2 ^ 8 % 2 ^ 8 < 2 ^ 8 := Nat.mod_lt _ (by norm_num)
  have hx2 : ((n % 2 ^ 16 : ℕ) : ℚ) - ((n / 2 ^ 8 % 2 ^ 8 : ℕ) : ℚ) * 2 ^ 8
      = ((n % 2 ^ 8 : ℕ) : ℚ) := by
    have h88 : (2 : ℕ) ^ 16 = 2 ^ 8 * 2 ^ 8 := by norm_num
    have e1 : n / 2 ^ 8 % 2 ^ 8 = n % 2 ^ 16 / 2 ^ 8 := by
      rw [h88, Nat.mod_mul_right_div_self]
    have e2 : n % 2 ^ 16 % 2 ^ 8 = n % 2 ^ 8 :=
      Nat.mod_mod_of_dvd n (by norm_num)
    have hd := Nat.div_add_mod (n % 2 ^ 16) (2 ^ 8)
    rw [e1]
    have : ((2 ^ 8 * (n % 2 ^ 16 / 2 ^ 8) + n % 2 ^ 16 % 2 ^ 8 : ℕ) : ℚ)
        = ((n % 2 ^ 16 : ℕ) : ℚ) := by rw [hd]
    rw [e2] at this
    push_cast at this ⊢
    linarith
  have hb : n % 2 ^ 8 < 2 ^ 8 := Nat.mod_lt _ (by norm_num)
  simp only [splitChannels, hfr, Int.toNat_natCast]
  rw [Nat.mod_eq_of_lt (by omega : n / 2 ^ 16 < 2 ^ 32), hx1, hfg, Int.toNat_natCast,
    Nat.mod_eq_of_lt (by omega : n / 2 ^ 8 % 2 ^ 8 < 2 ^ 32), hx2, Int.floor_natCast,
    Int.toNat_natCast, Nat.mod_eq_of_lt (by omega : n % 2 ^ 8 < 2 ^ 32),
    Nat.mod_eq_of_lt hr, Nat.mod_eq_of_lt hg, Nat.mod_eq_of_lt hb]

/-! ### Bounds for the clamped scaled value -/

theorem scaleClamp_nonneg (v : FVal) : 0 ≤ scaleClamp v := by
  cases v with
  | fin q =>
    rw [scaleClamp_fin]
    split_ifs with h1 h2
    · norm_num
    · norm_num
    · exact not_lt.mp h1
  | nan => simp
  | posinf => simp; norm_num
  | neginf => simp

theorem scaleClamp_le (v : FVal) : scaleClamp v ≤ 2 ^ 24 - 1 := by
  cases v with
  | fin q =>
    rw [scaleClamp_fin]
    split_ifs with h1 h2
    · norm_num
    · norm_num
    · exact not_lt.mp h2
  | nan => simp; norm_num
  | posinf => simp
  | neginf => simp; norm_num

/-! ### Structure of a successful encode -/

theorem data_to_rgb_eq_some {grid : List (List FVal)} {nodata : Option ℚ}
    {out : List (List (Nat × Nat × Nat))} (h : data_to_rgb grid nodata = some out) :
    out = grid.map (fun row => row.map (fun v => encodePixel (substNodata nodata v))) := by
  simp only [data_to_rgb] at h
  split at h
  · exact absurd h (by simp)
  · obtain rfl : _ = out := Option.some.inj h
    simp [List.map_map, Function.comp]

theorem get2_map {α β : Type} (f : α → β) (g : List (List α)) (i j : Nat) :
    get2 (g.map (fun row => row.map f)) i j = (get2 g i j).map f := by
  unfold get2
  rw [List.getElem?_map]
  cases g[i]? with
  | none => rfl
  | some row => simp [List.getElem?_map]

theorem encodePixel_bounds (v : FVal) :
    (encodePixel v).1 ≤ 255 ∧ (encodePixel v).2.1 ≤ 255 ∧ (encodePixel v).2.2 ≤ 255 := by
  unfold encodePixel
  split_ifs
  · exact ⟨by norm_num, by norm_num, by norm_num⟩
  · unfold splitChannels
    refine ⟨?_, ?_, ?_⟩ <;> simp <;> omega

/-! ### Characterizing `nanmax` and `nanmin` over infinity-free data -/

theorem filter_eq_map_fin (l : List FVal)
    (h : ∀ v ∈ l, v ≠ FVal.posinf ∧ v ≠ FVal.neginf) :
    l.filter (fun v => !v.isNaN) = (finVals l).map FVal.fin := by
  induction l with
  | nil => rfl
  | cons v t ih =>
    have hv := h v (List.mem_cons_self v t)
    have ht := ih (fun w hw => h w (List.mem_cons_of_mem _ hw))
    cases v with
    | fin q => simp [List.filter_cons, finVals, List.filterMap_cons] at ht ⊢; exact ht
    | nan => simp [List.filter_cons, finVals, List.filterMap_cons] at ht ⊢; exact ht
    | posinf => exact absurd rfl hv.1
    | neginf => exact absurd rfl hv.2

theorem foldl_fmax_fin (qs : List ℚ) (q : ℚ) :
    (qs.map FVal.fin).foldl fmax (FVal.fin q) = FVal.fin (qs.foldl max q) := by
  induction qs generalizing q with
  | nil => rfl
  | cons a t ih => simp only [List.map_cons, List.foldl_cons, fmax, ih]

theorem foldl_fmin_fin (qs : List ℚ) (q : ℚ) :
    (qs.map FVal.fin).foldl fmin (FVal.fin q) = FVal.fin (qs.foldl min q) := by
  induction qs generalizing q with
  | nil => rfl
  | cons a t ih => simp only [List.map_cons, List.foldl_cons, fmin, ih]

theorem foldl_max_is_ub (qs : List ℚ) (q : ℚ) :
    q ≤ qs.foldl max q ∧ ∀ a ∈ qs, a ≤ qs.foldl max q := by
  induction qs generalizing q with
  | nil => exact ⟨le_refl q, by simp⟩
  | cons b t ih =>
    refine ⟨le_trans (le_max_left q b) (ih (max q b)).1, ?_⟩
    intro a ha
    rcases List.mem_cons.mp ha with rfl | ha
    · exact le_trans (le_max_right q a) (ih (max q a)).1
    · exact (ih (max q b)).2 a ha

theorem foldl_min_is_lb (qs : List ℚ) (q : ℚ) :
    qs.foldl min q ≤ q ∧ ∀ a ∈ qs, qs.foldl min q ≤ a := by
  induction qs generalizing q with
  | nil => exact ⟨le_refl q, by simp⟩
  | cons b t ih =>
    refine ⟨le_trans (ih (min q b)).1 (min_le_left q b), ?_⟩
    intro a ha
    rcases List.mem_cons.mp ha with rfl | ha
    · exact le_trans (ih (min q a)).1 (min_le_right q a)
    · exact (ih (min q b)).2 a ha

theorem foldl_max_mem (qs : List ℚ) (q : ℚ) :
    qs.foldl max q = q ∨ qs.foldl max q ∈ qs := by
  induction qs generalizing q with
  | nil => exact Or.inl rfl
  | cons b t ih =>
    rcases ih (max q b) with h | h
    · rcases max_choice q b with hm | hm
      · exact Or.inl (by rw [List.foldl_cons, h]; exact hm)
      · exact Or.inr (by rw [List.foldl_cons, h, hm]; exact List.mem_cons_self b t)
    · exact Or.inr (List.mem_cons_of_mem _ h)

theorem foldl_min_mem (qs : List ℚ) (q : ℚ) :
    qs.foldl min q = q ∨ qs.foldl min q ∈ qs := by
  induction qs generalizing q with
  | nil => exact Or.inl rfl
  | cons b t ih =>
    rcases ih (min q b) with h | h
    · rcases min_choice q b with hm | hm
      · exact Or.inl (by rw [List.foldl_cons, h]; exact hm)
      · exact Or.inr (by rw [List.foldl_cons, h, hm]; exact List.mem_cons_self b t)
    · exact Or.inr (List.mem_cons_of_mem _ h)

theorem nanmax_spec (l : List FVal)
    (h : ∀ v ∈ l, v ≠ FVal.posinf ∧ v ≠ FVal.neginf) :
    (finVals l = [] ∧ nanmax l = FVal.nan) ∨
    ∃ M, nanmax l = FVal.fin M ∧ M ∈ finVals l ∧ ∀ a ∈ finVals l, a ≤ M := by
  unfold nanmax
  rw [filter_eq_map_fin l h]
  cases hfv : finVals l with
  | nil => exact Or.inl ⟨rfl, rfl⟩
  | cons q qs =>
    right
    refine ⟨qs.foldl max q, ?_, ?_, ?_⟩
    · simp only [List.map_cons, foldl_fmax_fin]
    · rcases foldl_max_mem qs q with h' | h'
      · rw [h']; exact List.mem_cons_self q qs
      · exact List.mem_cons_of_mem _ h'
    · intro a ha
      rcases List.mem_cons.mp ha with rfl | ha
      · exact (foldl_max_is_ub qs a).1
      · exact (foldl_max_is_ub qs q).2 a ha

theorem nanmin_spec (l : List FVal)
    (h : ∀ v ∈ l, v ≠ FVal.posinf ∧ v ≠ FVal.neginf) :
    (finVals l = [] ∧ nanmin l = FVal.nan) ∨
    ∃ m, nanmin l = FVal.fin m ∧ m ∈ finVals l ∧ ∀ a ∈ finVals l, m ≤ a := by
  unfold nanmin
  rw [filter_eq_map_fin l h]
  cases hfv : finVals l with
  | nil => exact Or.inl ⟨rfl, rfl⟩
  | cons q qs =>
    right
    refine ⟨qs.foldl min q, ?_, ?_, ?_⟩
    · simp only [List.map_cons, foldl_fmin_fin]
    · rcases foldl_min_mem qs q with h' | h'
      · rw [h']; exact List.mem_cons_self q qs
      · exact List.mem_cons_of_mem _ h'
    · intro a ha
      rcases List.mem_cons.mp ha with rfl | ha
      · exact (foldl_min_is_lb qs a).1
      · exact (foldl_min_is_lb qs q).2 a ha

/-! ### The reserved triple is hit exactly at integer code `2 ^ 23` -/

theorem splitChannels_eq_reserved (xc : ℚ) (h0 : 0 ≤ xc) (h1 : xc ≤ 2 ^ 24 - 1)
    (h : splitChannels xc = (128, 0, 0)) : ⌊xc⌋ = 2 ^ 23 := by
  simp only [splitChannels, Prod.mk.injEq] at h
  obtain ⟨h1r, h2g, h3b⟩ := h
  have hA0 : (0 : ℤ) ≤ ⌊xc / 2 ^ 16⌋ := Int.floor_nonneg.mpr (by positivity)
  have hA1 : ⌊xc / 2 ^ 16⌋ < 256 := by
    rw [Int.floor_lt, div_lt_iff₀ (by norm_num : (0:ℚ) < 2 ^ 16)]
    push_cast
    linarith
  have hA : ⌊xc / 2 ^ 16⌋ = 128 := by omega
  have hxlo : (2 ^ 23 : ℚ) ≤ xc := by
    have := (Int.floor_eq_iff.mp hA).1
    rw [le_div_iff₀ (by norm_num : (0:ℚ) < 2 ^ 16)] at this
    push_cast at this
    linarith
  have hxhi : xc < 129 * 2 ^ 16 := by
    have := (Int.floor_eq_iff.mp hA).2
    rw [div_lt_iff₀ (by norm_num : (0:ℚ) < 2 ^ 16)] at this
    push_cast at this
    linarith
  rw [hA] at h2g h3b
  have er : ((Int.toNat 128 % 2 ^ 32 : ℕ) : ℚ) = 128 := by simp [Int.toNat_ofNat]
  rw [er] at h2g h3b
  have hylo : (0 : ℚ) ≤ xc - 128 * 2 ^ 16 := by linarith
  have hB0 : (0 : ℤ) ≤ ⌊(xc - 128 * 2 ^ 16) / 2 ^ 8⌋ :=
    Int.floor_nonneg.mpr (div_nonneg hylo (by norm_num))
  have hB1 : ⌊(xc - 128 * 2 ^ 16) / 2 ^ 8⌋ < 256 := by
    rw [Int.floor_lt, div_lt_iff₀ (by norm_num : (0:ℚ) < 2 ^ 8)]
    push_cast
    linarith
  have hB : ⌊(xc - 128 * 2 ^ 16) / 2 ^ 8⌋ = 0 := by omega
  rw [hB] at h3b
  have eg : ((Int.toNat 0 % 2 ^ 32 : ℕ) : ℚ) = 0 := by simp
  rw [eg] at h3b
  have hC0 : (0 : ℤ) ≤ ⌊xc - 128 * 2 ^ 16 - 0 * 2 ^ 8⌋ := by
    apply Int.floor_nonneg.mpr
    linarith
  have hC1 : ⌊xc - 128 * 2 ^ 16 - 0 * 2 ^ 8⌋ < 256 := by
    rw [Int.floor_lt]
    push_cast
    have := (Int.floor_eq_iff.mp hB).2
    rw [div_lt_iff₀ (by norm_num : (0:ℚ) < 2 ^ 8)] at this
    push_cast at this
    linarith
  have hC : ⌊xc - 128 * 2 ^ 16 - 0 * 2 ^ 8⌋ = 0 := by omega
  have hzhi : xc - 128 * 2 ^ 16 < 1 := by
    have := (Int.floor_eq_iff.mp hC).2
    push_cast at this
    linarith
  rw [Int.floor_eq_iff]
  refine ⟨?_, ?_⟩
  · push_cast
    linarith
  · push_cast
    linarith

/-! ### Concrete evaluations shared by several proofs -/

theorem splitChannels_zero : splitChannels (0 : ℚ) = (0, 0, 0) := by
  have h := splitChannels_nat 0 (by norm_num)
  simpa using h

theorem decodePixel_plain (r g b : Nat) (hr : r ≤ 255) (hg : g ≤ 255) (hb : b ≤ 255)
    (hne : ((r, g, b) : Nat × Nat × Nat) ≠ (128, 0, 0)) :
    decodePixel (r, g, b) = ((r : ℚ) * 2 ^ 16 + (g : ℚ) * 2 ^ 8 + (b : ℚ)) * u := by
  simp only [decodePixel]
  rw [if_neg hne]
  rw [if_neg]
  have hr' : (r : ℚ) ≤ 255 := by exact_mod_cast hr
  have hg' : (g : ℚ) ≤ 255 := by exact_mod_cast hg
  have hb' : (b : ℚ) ≤ 255 := by exact_mod_cast hb
  have hr0 : (0 : ℚ) ≤ (r : ℚ) := by positivity
  have hg0 : (0 : ℚ) ≤ (g : ℚ) := by positivity
  have hb0 : (0 : ℚ) ≤ (b : ℚ) := by positivity
  rw [u]
  intro hcontra
  nlinarith

theorem decodePixel_zero : decodePixel (0, 0, 0) = 0 := by
  rw [decodePixel_plain 0 0 0 (by norm_num) (by norm_num) (by norm_num) (by decide)]
  norm_num

/-! ## Claim theorems -/

/-- Claim C1: the spec asserts a round trip within the 0.01 quantization for any
`|v| < 2^23 * 0.01`, in particular for `v = -500`.  The code instead clamps the
negative scaled value to 0: encoding the one-sample grid `[-500]` yields the
pixel `(0, 0, 0)`, which decodes to `0`, an error of `500`, far beyond `u`. -/
theorem claimC1_roundtrip_fails_on_negative :
    data_to_rgb [[FVal.fin (-500)]] (some (-9999)) = some [[(0, 0, 0)]] ∧
    _decode [[(0, 0, 0)]] = [[0]] ∧
    ¬ |(0 : ℚ) - (-500)| ≤ u := by
  refine ⟨?_, ?_, ?_⟩
  · have hsc : scaleClamp (FVal.fin (-500)) = 0 := by
      rw [scaleClamp_fin]
      norm_num [u]
    norm_num [data_to_rgb, nanmax, nanmin, List.filter, fsub, fgt, encodePixel,
      hsc, splitChannels_zero]
  · simp only [_decode, List.map_cons, List.map_nil]
    rw [decodePixel_zero]
  · rw [show (0 : ℚ) - -500 = 500 by norm_num,
      abs_of_pos (by norm_num : (0:ℚ) < 500)]
    norm_num [u]

/-- Claim C2: the spec asserts that a valid sample whose scaled value
`x = value / u` is negative is folded by adding `2^24`.  The code instead
clamps every negative scaled value to `0` (`x[x < 0] = 0`), so the stored
code is `0`, not `x + 2^24`. -/
theorem claimC2_negative_scaled_clamped_to_zero (q : ℚ) (h : q / u < 0) :
    scaleClamp (FVal.fin q) = 0 := by
  rw [scaleClamp_fin, if_pos h]

/-- Witness for C2 at `q = -500` (scaled value `-50000`, where the claimed
wraparound result `2^24 - 50000 = 16727216` differs from the actual `0`). -/
theorem claimC2_witness :
    (-500 : ℚ) / u < 0 ∧ scaleClamp (FVal.fin (-500)) = 0 ∧ (0 : ℚ) ≠ 16727216 :=
  ⟨by norm_num [u], claimC2_negative_scaled_clamped_to_zero (-500) (by norm_num [u]),
    by norm_num⟩

/-- Claim C3: the spec asserts that decode returns `(code - 2^24) * u` whenever
`value > 2^23 * u`.  In the code the overflow test compares `value = code * u`
(not `code`) against `2^23`, which is impossible for byte channels, so the
unwrap branch never fires: every non-reserved pixel decodes to plain
`code * u`.  In particular `(128, 0, 1)` (code `8388609 > 2^23`) decodes to
`83886.09`, not the claimed `(8388609 - 2^24) * u = -83886.07`. -/
theorem claimC3_unwrap_branch_dead (r g b : Nat)
    (hr : r ≤ 255) (hg : g ≤ 255) (hb : b ≤ 255)
    (hne : ((r, g, b) : Nat × Nat × Nat) ≠ (128, 0, 0)) :
    decodePixel (r, g, b) = ((r : ℚ) * 2 ^ 16 + (g : ℚ) * 2 ^ 8 + (b : ℚ)) * u ∧
    ((8388609 : ℚ) * u ≠ ((8388609 : ℚ) - 2 ^ 24) * u) := by
  exact ⟨decodePixel_plain r g b hr hg hb hne, by norm_num [u]⟩

/-- Witness for C3 at the pixel `(128, 0, 1)`. -/
theorem claimC3_witness :
    decodePixel (128, 0, 1) = ((128 : ℚ) * 2 ^ 16 + (0 : ℚ) * 2 ^ 8 + (1 : ℚ)) * u :=
  (claimC3_unwrap_branch_dead 128 0 1 (by norm_num) (by norm_num) (by norm_num)
    (by decide)).1

/-- Claim C5: a configured nodata sample encodes to exactly `(128, 0, 0)`
whenever encoding succeeds, and decode maps exactly `(128, 0, 0)` to the
sentinel `-9999` with no further arithmetic applied. -/
theorem claimC5_nodata_fidelity :
    (∀ (grid : List (List FVal)) (n : ℚ) (out : List (List (Nat × Nat × Nat)))
        (i j : Nat),
        data_to_rgb grid (some n) = some out →
        get2 grid i j = some (FVal.fin n) →
        get2 out i j = some (128, 0, 0)) ∧
    (∀ (rgb : List (List (Nat × Nat × Nat))) (i j : Nat),
        get2 rgb i j = some (128, 0, 0) →
        get2 (_decode rgb) i j = some (-9999)) := by
  constructor
  · intro grid n out i j henc hg
    rw [data_to_rgb_eq_some henc, get2_map, hg]
    simp [encodePixel]
  · intro rgb i j h
    unfold _decode
    rw [get2_map, h, Option.map_some']
    have hd : decodePixel (128, 0, 0) = -9999 := by
      simp only [decodePixel]
      norm_num
    rw [hd]

/-- Witness for C5: the one-sample grid `[-9999]` with sentinel `-9999`. -/
theorem claimC5_witness :
    get2 [[((128 : Nat), (0 : Nat), (0 : Nat))]] 0 0 = some (128, 0, 0) ∧
    get2 (_decode [[(128, 0, 0)]]) 0 0 = some (-9999) := by
  have henc : data_to_rgb [[FVal.fin (-9999)]] (some (-9999)) = some [[(128, 0, 0)]] := by
    norm_num [data_to_rgb, nanmax, nanmin, List.filter, fsub, fgt, encodePixel]
  exact ⟨claimC5_nodata_fidelity.1 [[FVal.fin (-9999)]] (-9999) [[(128, 0, 0)]] 0 0
      henc (by simp [get2]),
    claimC5_nodata_fidelity.2 [[(128, 0, 0)]] 0 0 (by decide)⟩

/-- Claim C7 counterexample: the claim says every non-finite scaled result is
replaced by `0`.  The code maps `+inf` to `2^24 - 1` (`posinf=2**24-1` in
`nan_to_num`), so the grid `[+inf]` encodes to `(255, 255, 255)`, not
`(0, 0, 0)`. -/
theorem claimC7_counterexample :
    data_to_rgb [[FVal.posinf]] (some (-9999)) = some [[(255, 255, 255)]] ∧
    ((255, 255, 255) : Nat × Nat × Nat) ≠ (0, 0, 0) := by
  refine ⟨?_, by decide⟩
  have hsplit : splitChannels (16777215 : ℚ) = (255, 255, 255) := by
    have h := splitChannels_nat 16777215 (by norm_num)
    rw [show ((16777215 : ℕ) : ℚ) = (16777215 : ℚ) by norm_num] at h
    rw [h]
    norm_num
  norm_num [data_to_rgb, nanmax, nanmin, List.filter, fsub, fgt, encodePixel, hsplit]

/-- Claim C7 (amended): after scaling, the encoder replaces NaN and `-inf`
results by `0` and `+inf` results by `2^24 - 1`, clamps negative values to
`0` and values above `2^24 - 1` to `2^24 - 1`, and leaves in-range values
unchanged. -/
theorem claimC7_clamp_policy :
    scaleClamp FVal.nan = 0 ∧
    scaleClamp FVal.neginf = 0 ∧
    scaleClamp FVal.posinf = 2 ^ 24 - 1 ∧
    (∀ q : ℚ, q / u < 0 → scaleClamp (FVal.fin q) = 0) ∧
    (∀ q : ℚ, q / u > 2 ^ 24 - 1 → scaleClamp (FVal.fin q) = 2 ^ 24 - 1) ∧
    (∀ q : ℚ, 0 ≤ q / u → q / u ≤ 2 ^ 24 - 1 → scaleClamp (FVal.fin q) = q / u) := by
  refine ⟨by simp, by simp, by simp, ?_, ?_, ?_⟩
  · intro q h
    rw [scaleClamp_fin, if_pos h]
  · intro q h
    rw [scaleClamp_fin, if_neg (by linarith), if_pos h]
  · intro q h0 h1
    rw [scaleClamp_fin, if_neg (by linarith), if_neg (by linarith)]

/-- Witness for the amended C7 at `q = -1` (scaled `-100`, clamped to 0). -/
theorem claimC7_witness :
    (-1 : ℚ) / u < 0 ∧ scaleClamp (FVal.fin (-1)) = 0 :=
  ⟨by norm_num [u], claimC7_clamp_policy.2.2.2.1 (-1) (by norm_num [u])⟩

/-- Claim C10: a NaN sample is treated as missing for every nodata setting
(including `nodata = None`): it is encoded as the reserved `(128, 0, 0)`
triple, and `nanmax`/`nanmin` (hence the range computation) ignore it. -/
theorem claimC10_nan_is_missing :
    (∀ (grid : List (List FVal)) (nodata : Option ℚ)
        (out : List (List (Nat × Nat × Nat))) (i j : Nat),
        data_to_rgb grid nodata = some out →
        get2 grid i j = some FVal.nan →
        get2 out i j = some (128, 0, 0)) ∧
    (∀ l : List FVal,
        nanmax (FVal.nan :: l) = nanmax l ∧ nanmin (FVal.nan :: l) = nanmin l) := by
  constructor
  · intro grid nodata out i j henc hg
    rw [data_to_rgb_eq_some henc, get2_map, hg]
    cases nodata with
    | none => simp [encodePixel]
    | some n => simp [encodePixel]
  · intro l
    constructor
    · unfold nanmax
      simp [List.filter_cons]
    · unfold nanmin
      simp [List.filter_cons]

/-- Witness for C10: a single NaN sample with nodata recognition disabled. -/
theorem claimC10_witness :
    get2 [[((128 : Nat), (0 : Nat), (0 : Nat))]] 0 0 = some (128, 0, 0) ∧
    nanmax [FVal.nan] = nanmax [] := by
  have henc : data_to_rgb [[FVal.nan]] none = some [[(128, 0, 0)]] := by
    simp [data_to_rgb, nanmax, nanmin, List.filter, fsub, fgt, encodePixel]
  exact ⟨claimC10_nan_is_missing.1 [[FVal.nan]] none [[(128, 0, 0)]] 0 0 henc
      (by simp [get2]),
    (claimC10_nan_is_missing.2 []).1⟩

/-- The range-check condition holds iff two finite valid samples are more
than `256 ^ 3` apart (over infinity-free data). -/
theorem rangeExceeded_iff (l : List FVal)
    (hinf : ∀ v ∈ l, v ≠ FVal.posinf ∧ v ≠ FVal.neginf) :
    (fgt (fsub (nanmax l) (nanmin l)) (FVal.fin (256 ^ 3)) = true) ↔
      (∃ a ∈ finVals l, ∃ b ∈ finVals l, a - b > 256 ^ 3) := by
  rcases nanmax_spec l hinf with ⟨hfv, hmax⟩ | ⟨M, hmax, hMmem, hMub⟩
  · rcases nanmin_spec l hinf with ⟨_, hmin⟩ | ⟨m, _, hmmem, _⟩
    · rw [hmax, hmin]
      simp [fsub, fgt, hfv]
    · rw [hfv] at hmmem
      exact absurd hmmem (List.not_mem_nil m)
  · rcases nanmin_spec l hinf with ⟨hfv, _⟩ | ⟨m, hmin, hmmem, hmlb⟩
    · rw [hfv] at hMmem
      exact absurd hMmem (List.not_mem_nil M)
    · rw [hmax, hmin]
      simp only [fsub, fgt, decide_eq_true_eq]
      constructor
      · intro hgt
        exact ⟨M, hMmem, m, hmmem, by linarith⟩
      · rintro ⟨a, ha, b, hb, hab⟩
        have h1 := hMub a ha
        have h2 := hmlb b hb
        linarith

/-- Claim C4 counterexample: the claim measures the range post-scaling.  The
grid `[0, 10^6]` has post-scaling range `10^8 > 256^3`, so the claim predicts
a `RangeExceeded` failure, yet the code measures the raw range `10^6` and
succeeds. -/
theorem claimC4_counterexample :
    (data_to_rgb [[FVal.fin 0, FVal.fin 1000000]] (some (-9999))).isSome = true ∧
    ((1000000 : ℚ) - 0) / u > 256 ^ 3 := by
  constructor
  · have hsc : scaleClamp (FVal.fin 1000000) = 2 ^ 24 - 1 := by
      rw [scaleClamp_fin]
      norm_num [u]
    norm_num [data_to_rgb, nanmax, nanmin, List.filter, fmax, fmin, fsub, fgt,
      encodePixel, hsc, scaleClamp_fin, u, splitChannels_zero]
  · norm_num [u]

/-- Claim C4 (amended): `data_to_rgb` fails exactly when two valid samples are
more than `256 ^ 3` apart in raw (pre-scaling) units, and succeeds when the
grid has no valid samples at all. -/
theorem claimC4_range_rejection_raw :
    (∀ (grid : List (List FVal)) (nodata : Option ℚ),
      (∀ v ∈ (grid.map (fun row => row.map (substNodata nodata))).flatten,
          v ≠ FVal.posinf ∧ v ≠ FVal.neginf) →
      (data_to_rgb grid nodata = none ↔
        ∃ a ∈ validVals grid nodata, ∃ b ∈ validVals grid nodata, a - b > 256 ^ 3)) ∧
    (∀ (grid : List (List FVal)) (nodata : Option ℚ),
      (∀ v ∈ (grid.map (fun row => row.map (substNodata nodata))).flatten,
          v.isNaN = true) →
      (data_to_rgb grid nodata).isSome = true) := by
  constructor
  · intro grid nodata hinf
    simp only [data_to_rgb]
    split_ifs with hc
    · exact iff_of_true rfl ((rangeExceeded_iff _ hinf).mp hc)
    · refine iff_of_false (by simp) (fun hex => hc ((rangeExceeded_iff _ hinf).mpr hex))
  · intro grid nodata hnan
    have hfilter :
        ((grid.map (fun row => row.map (substNodata nodata))).flatten).filter
          (fun v => !v.isNaN) = [] := by
      rw [List.filter_eq_nil_iff]
      intro v hv
      simp [hnan v hv]
    have hmax : nanmax ((grid.map (fun row => row.map (substNodata nodata))).flatten)
        = FVal.nan := by
      unfold nanmax
      rw [hfilter]
    have hmin : nanmin ((grid.map (fun row => row.map (substNodata nodata))).flatten)
        = FVal.nan := by
      unfold nanmin
      rw [hfilter]
    simp [data_to_rgb, hmax, hmin, fsub, fgt]

/-- Witness for the amended C4: the grid `[0, 2 * 10^7]` has raw range
`2 * 10^7 > 256 ^ 3` and is rejected. -/
theorem claimC4_witness :
    data_to_rgb [[FVal.fin 0, FVal.fin 20000000]] (some (-9999)) = none := by
  have hflat :
      (([[FVal.fin 0, FVal.fin 20000000]].map
        (fun row => row.map (substNodata (some (-9999))))).flatten)
      = [FVal.fin 0, FVal.fin 20000000] := by
    norm_num
  have hinf : ∀ v ∈ (([[FVal.fin 0, FVal.fin 20000000]].map
      (fun row => row.map (substNodata (some (-9999))))).flatten),
      v ≠ FVal.posinf ∧ v ≠ FVal.neginf := by
    rw [hflat]
    intro v hv
    rcases List.mem_cons.mp hv with rfl | hv
    · exact ⟨by simp, by simp⟩
    · rcases List.mem_cons.mp hv with rfl | hv
      · exact ⟨by simp, by simp⟩
      · exact absurd hv (List.not_mem_nil v)
  apply (claimC4_range_rejection_raw.1 _ _ hinf).mpr
  have hvv : validVals [[FVal.fin 0, FVal.fin 20000000]] (some (-9999))
      = [0, 20000000] := by
    unfold validVals
    rw [hflat]
    simp [finVals, List.filterMap_cons, List.filterMap_nil]
  refine ⟨20000000, ?_, 0, ?_, by norm_num⟩
  · rw [hvv]
    simp
  · rw [hvv]
    simp

/-- Claim C6 counterexample: the valid, in-range elevation `83886.08`
(scaled code exactly `2 ^ 23`) encodes to the reserved triple `(128, 0, 0)`,
so the reserved code is not exclusive to missing samples. -/
theorem claimC6_counterexample :
    data_to_rgb [[FVal.fin (2097152 / 25)]] (some (-9999)) = some [[(128, 0, 0)]] ∧
    (FVal.fin (2097152 / 25)).isNaN = false ∧
    FVal.fin (2097152 / 25) ≠ FVal.fin (-9999) ∧
    0 ≤ (2097152 / 25 : ℚ) / u ∧ (2097152 / 25 : ℚ) / u ≤ 2 ^ 24 - 1 := by
  refine ⟨?_, rfl, by simp only [ne_eq, FVal.fin.injEq]; norm_num,
    by norm_num [u], by norm_num [u]⟩
  have hsc : scaleClamp (FVal.fin (2097152 / 25)) = 8388608 := by
    rw [scaleClamp_fin]
    norm_num [u]
  have hsplit : splitChannels (8388608 : ℚ) = (128, 0, 0) := by
    have h := splitChannels_nat 8388608 (by norm_num)
    rw [show ((8388608 : ℕ) : ℚ) = (8388608 : ℚ) by norm_num] at h
    rw [h]
    norm_num
  norm_num [data_to_rgb, nanmax, nanmin, List.filter, fsub, fgt, encodePixel, hsc, hsplit]

/-- Claim C6 (amended): on a successful encode, a valid sample produces the
reserved triple `(128, 0, 0)` only when its clamped scaled value floors to
exactly `2 ^ 23`; any valid sample with a different code never yields it. -/
theorem claimC6_reserved_code_exclusive :
    ∀ (grid : List (List FVal)) (n : ℚ) (out : List (List (Nat × Nat × Nat)))
      (i j : Nat) (v : FVal),
      data_to_rgb grid (some n) = some out →
      get2 grid i j = some v →
      v.isNaN = false →
      v ≠ FVal.fin n →
      ⌊scaleClamp v⌋ ≠ 2 ^ 23 →
      get2 out i j ≠ some (128, 0, 0) := by
  intro grid n out i j v henc hg hnn hne hfloor
  rw [data_to_rgb_eq_some henc, get2_map, hg, Option.map_some']
  intro hcontra
  have heq : encodePixel (substNodata (some n) v) = (128, 0, 0) :=
    Option.some.inj hcontra
  have hsub : substNodata (some n) v = v := by
    have hdef : substNodata (some n) v = if v = FVal.fin n then FVal.nan else v := rfl
    rw [hdef, if_neg hne]
  rw [hsub] at heq
  simp only [encodePixel, hnn, Bool.false_eq_true, if_false] at heq
  exact hfloor (splitChannels_eq_reserved _ (scaleClamp_nonneg v) (scaleClamp_le v) heq)

/-- Witness for the amended C6: the sample `100` (code `10000`) encodes to
`(0, 39, 16)`, not the reserved triple. -/
theorem claimC6_witness :
    get2 [[((0 : Nat), (39 : Nat), (16 : Nat))]] 0 0 ≠ some (128, 0, 0) := by
  have hsc : scaleClamp (FVal.fin 100) = 10000 := by
    rw [scaleClamp_fin]
    norm_num [u]
  have hsplit : splitChannels (10000 : ℚ) = (0, 39, 16) := by
    have h := splitChannels_nat 10000 (by norm_num)
    rw [show ((10000 : ℕ) : ℚ) = (10000 : ℚ) by norm_num] at h
    rw [h]
    norm_num
  have henc : data_to_rgb [[FVal.fin 100]] (some (-9999)) = some [[(0, 39, 16)]] := by
    norm_num [data_to_rgb, nanmax, nanmin, List.filter, fsub, fgt, encodePixel, hsc, hsplit]
  exact claimC6_reserved_code_exclusive [[FVal.fin 100]] (-9999) [[(0, 39, 16)]] 0 0
    (FVal.fin 100) henc (by simp [get2]) rfl
    (by simp only [ne_eq, FVal.fin.injEq]; norm_num)
    (by rw [hsc]; norm_num)

/-- Claim C8: a successful encode yields a grid with the same number of rows,
the same length for each row, and every channel of every pixel in `[0, 255]`. -/
theorem claimC8_channel_range_and_shape :
    ∀ (grid : List (List FVal)) (nodata : Option ℚ)
      (out : List (List (Nat × Nat × Nat))),
      data_to_rgb grid nodata = some out →
      out.length = grid.length ∧
      (∀ i : Nat, (out[i]?).map List.length = (grid[i]?).map List.length) ∧
      (∀ (i j : Nat) (p : Nat × Nat × Nat), get2 out i j = some p →
        p.1 ≤ 255 ∧ p.2.1 ≤ 255 ∧ p.2.2 ≤ 255) := by
  intro grid nodata out henc
  have hout := data_to_rgb_eq_some henc
  subst hout
  refine ⟨by simp, ?_, ?_⟩
  · intro i
    rw [List.getElem?_map]
    cases grid[i]? with
    | none => rfl
    | some row => simp
  · intro i j p hp
    rw [get2_map] at hp
    obtain ⟨v, _, hpv⟩ := Option.map_eq_some'.mp hp
    rw [← hpv]
    exact encodePixel_bounds _

/-- Witness for C8 on the grid `[[100]]`. -/
theorem claimC8_witness :
    (((0 : Nat), (39 : Nat), (16 : Nat)) : Nat × Nat × Nat).1 ≤ 255 ∧
    (((0 : Nat), (39 : Nat), (16 : Nat)) : Nat × Nat × Nat).2.1 ≤ 255 ∧
    (((0 : Nat), (39 : Nat), (16 : Nat)) : Nat × Nat × Nat).2.2 ≤ 255 := by
  have hsc : scaleClamp (FVal.fin 100) = 10000 := by
    rw [scaleClamp_fin]
    norm_num [u]
  have hsplit : splitChannels (10000 : ℚ) = (0, 39, 16) := by
    have h := splitChannels_nat 10000 (by norm_num)
    rw [show ((10000 : ℕ) : ℚ) = (10000 : ℚ) by norm_num] at h
    rw [h]
    norm_num
  have henc : data_to_rgb [[FVal.fin 100]] (some (-9999)) = some [[(0, 39, 16)]] := by
    norm_num [data_to_rgb, nanmax, nanmin, List.filter, fsub, fgt, encodePixel, hsc, hsplit]
  exact (claimC8_channel_range_and_shape [[FVal.fin 100]] (some (-9999))
    [[(0, 39, 16)]] henc).2.2 0 0 (0, 39, 16) rfl

end RioGsidem
